import Mathlib

/-
  Verification of the block-sealing worker (miner/worker.go) of go-wemix.

  The Go code is shallowly embedded: pure fragments become Lean functions,
  in-place mutation becomes explicit state passing, machine integers become
  Nat/Int (with explicit `% 2^w` where wraparound matters), `float64`
  arithmetic is idealized as exact rational arithmetic over ℚ with the final
  `int64(...)` conversion modelled as truncation toward zero, and fallible Go
  functions return `Option`/`Except`.

  External collaborators (state database, gas pool, transaction application,
  the consensus engine, wall clock and the interrupt atomic) are modelled as
  abstract values or oracle functions supplied as parameters, mirroring the
  interfaces the worker code uses.
-/

namespace Worker

/-! ## Basic data model

Hashes, addresses and logs are abstracted to `Nat`; the StateDB contents are
abstracted to a single `Nat` value; the gas pool is its remaining gas. -/

abbrev Hash := Nat
abbrev Address := Nat
abbrev Log := Nat

/-- Receipt of an applied transaction (types.Receipt, the fields the worker
reads: consumed gas and the produced logs). -/
structure Receipt where
  gasUsed : Nat
  logs : List Log
deriving DecidableEq, Repr

/-- Transaction (types.Transaction, the fields the worker reads).
`isProtected` models `tx.Protected()`. -/
structure Tx where
  hash : Hash
  sender : Address
  nonce : Nat
  isProtected : Bool
deriving DecidableEq, Repr

/-- Block header (types.Header, the fields the worker reads).  `hashVal`
models the derived `Hash()` of the header as a stored field. -/
structure BHeader where
  hashVal : Hash
  parentHash : Hash
  number : Nat
  gasLimit : Nat
  time : Nat
deriving DecidableEq, Repr

/-- Error classes that `core.ApplyTransaction` can produce, as dispatched on
by the committer loop (`errors.Is` against the listed sentinel errors; `other`
stands for any error outside the listed ones). -/
inductive TxErr
  | gasLimitReached
  | nonceTooLow
  | nonceTooHigh
  | txTypeNotSupported
  | other
deriving DecidableEq, Repr

/-- Model of `core.ApplyTransaction` (external to this repository): given the
current state contents and remaining gas of the pool, it returns the state
contents and gas pool after the call together with either a receipt or an
error.  On error the state contents it returns may be arbitrary (partial
mutation); the caller is responsible for reverting. -/
abbrev ApplyFn := Nat → Nat → Tx → Nat × Nat × Except TxErr Receipt

/-! ## environment -/

/-- environment is the worker's current environment and holds all information
of the sealing block generation (struct `environment` in worker.go).
`uncles` is the hash→header map as an association list; `till` is the build
deadline in wall-clock milliseconds. -/
structure environment where
  signer : Nat
  state : Nat
  ancestors : List Hash
  family : List Hash
  tcount : Nat
  gasPool : Option Nat
  coinbase : Address
  header : BHeader
  txs : List Tx
  receipts : List Receipt
  uncles : List (Hash × BHeader)
  till : Option Int
  blockInterval : Int
  blockGasLimit : Nat
  baseFeeMaxChangeRate : Int
  gasTargetPercentage : Int
deriving DecidableEq, Repr

/-- copyReceipts makes a deep copy of the given receipts (worker.go
`copyReceipts`): each receipt struct value is copied; in the pure model a
value copy is the value itself, the map keeps the element-wise structure. -/
def copyReceipts (receipts : List Receipt) : List Receipt :=
  receipts.map (fun r => { gasUsed := r.gasUsed, logs := r.logs })

/-- copy creates a deep copy of environment (`environment.copy`).  Note the
source constructs the copy from the listed fields only: the wemix parameters
`till`, `blockInterval`, `blockGasLimit`, `baseFeeMaxChangeRate` and
`gasTargetPercentage` are left at their zero values in the copy. -/
def environment.copy (env : environment) : environment :=
  { signer := env.signer
    state := env.state
    ancestors := env.ancestors
    family := env.family
    tcount := env.tcount
    coinbase := env.coinbase
    header := env.header
    receipts := copyReceipts env.receipts
    gasPool := env.gasPool
    txs := env.txs
    uncles := env.uncles
    till := none
    blockInterval := 0
    blockGasLimit := 0
    baseFeeMaxChangeRate := 0
    gasTargetPercentage := 0 }

/-! ## commitTransaction -/

/-- commitTransaction (worker.go): take a snapshot of the state, apply the
transaction via `core.ApplyTransaction` (modelled by `applyTx`); on error
revert the state to the snapshot and return the error; on success append the
transaction and its receipt to the environment and return the receipt's logs.
The gas pool is threaded through `applyTx` and is not part of the snapshot
(only `env.state` is reverted, matching `state.RevertToSnapshot`). -/
def commitTransaction (applyTx : ApplyFn) (env : environment) (tx : Tx) :
    environment × Except TxErr (List Log) :=
  let snap := env.state
  match applyTx env.state (env.gasPool.getD 0) tx with
  | (_, gp, Except.error e) =>
      ({ env with state := snap, gasPool := some gp }, Except.error e)
  | (st, gp, Except.ok receipt) =>
      ({ env with
          state := st
          gasPool := some gp
          txs := env.txs ++ [tx]
          receipts := env.receipts ++ [receipt] },
       Except.ok receipt.logs)

/-! ## Transaction sources of the two committer variants -/

/-- Model of types.TransactionsByPriceAndNonce (go-ethereum, external to this
repository): per-account nonce-ordered transaction queues with a price-sorted
head heap.  `peek` returns the best head, `pop` removes the head account
entirely, `shift` advances within the head account.  The effective-gas-tip
ordering itself is abstracted: account queues are kept in a fixed list order
(none of the verified claims depends on the price order). -/
structure TxByPriceAndNonce where
  accounts : List (List Tx)
deriving DecidableEq, Repr

def TxByPriceAndNonce.peek (q : TxByPriceAndNonce) : Option Tx :=
  match q.accounts with
  | [] => none
  | txs :: _ => txs.head?

def TxByPriceAndNonce.pop (q : TxByPriceAndNonce) : TxByPriceAndNonce :=
  { accounts := q.accounts.tail }

def TxByPriceAndNonce.shift (q : TxByPriceAndNonce) : TxByPriceAndNonce :=
  match q.accounts with
  | [] => { accounts := [] }
  | txs :: rest =>
    match txs.tail with
    | [] => { accounts := rest }
    | txs' => { accounts := txs' :: rest }

/-- Modelled from the spec: `TxOrderer` (its source file is not among the
provided sources; only worker.go's call sites and §4.2 of the spec describe
it): round-robin per-sender queues that track committed transaction hashes
internally.  `peek` yields the current sender's next transaction, `shift`
advances round-robin to the next sender, `pop` drops the current sender's
remaining queue, `markCommitted` records a committed hash and
`committedLength` counts the recorded hashes. -/
structure TxOrderer where
  queues : List (List Tx)
  committed : List Hash
deriving DecidableEq, Repr

def TxOrderer.peek (o : TxOrderer) : Option Tx :=
  match o.queues with
  | [] => none
  | txs :: _ => txs.head?

def TxOrderer.pop (o : TxOrderer) : TxOrderer :=
  { o with queues := o.queues.tail }

def TxOrderer.shift (o : TxOrderer) : TxOrderer :=
  match o.queues with
  | [] => o
  | txs :: rest =>
    match txs.tail with
    | [] => { o with queues := rest }
    | txs' => { o with queues := rest ++ [txs'] }

def TxOrderer.markCommitted (o : TxOrderer) (tx : Tx) : TxOrderer :=
  if tx.hash ∈ o.committed then o
  else { o with committed := o.committed ++ [tx.hash] }

def TxOrderer.committedLength (o : TxOrderer) : Nat := o.committed.length

/-! ## The committer loops -/

/-- Exit disposition of one run of a committer loop (ghost data recording
which exit path of the Go loop was taken; `interrupted v` is the top-of-loop
interrupt return with `v` the value read from the interrupt atomic). -/
inductive CTExit
  | interrupted (v : Int)
  | gasExhausted
  | queueEmpty
  | txLimitReached
  | deadlineReached
deriving DecidableEq, Repr

/-- Result of one run of a committer loop: `aborted` is the Go return value
(computed exactly as the source computes it), `reason` the exit path taken,
plus the final environment, the recorded committed hashes and the coalesced
logs. -/
structure CTResult where
  aborted : Bool
  reason : CTExit
  env : environment
  committed : List Hash
  logs : List Log
deriving DecidableEq, Repr

/-- Parameters and oracles for one invocation of a committer loop.

The interrupt atomic is modelled by the per-iteration oracle `intrRead`:
every interrupt pointer is stored to at most once (in `commit` of
newWorkLoop, from None to the final signal) before being replaced, so once a
load returns a non-None value every later load of the same pointer returns
the same value; hence the up-to-three loads the Go code performs inside one
iteration all see `intrRead k`.  `tillElapsed k` models
`time.Until(*env.till) <= 0` evaluated at iteration `k`. -/
structure CTParams where
  applyTx : ApplyFn
  chainIsEIP155 : Bool
  txGas : Nat
  maxTxsPerBlock : Int
  blockMinBuildTxs : Int
  hasInterrupt : Bool
  intrRead : Nat → Int
  hasTstart : Bool
  tillElapsed : Nat → Bool

/-- Loop body of commitTransactions (worker.go), fuel-guarded.  `k` is the
iteration counter feeding the oracles; `committedTxs` models the (possibly
nil) committedTxs map passed by the caller, as an optional list of hashes.
`state.Prepare(tx.Hash(), env.tcount)` only sets log-bookkeeping inside the
StateDB and is elided; the channel sends on resubmitAdjustCh are elided. -/
def commitTransactionsLoop (P : CTParams) (fuel : Nat) (k : Nat)
    (env : environment) (txs : TxByPriceAndNonce)
    (committedTxs : Option (List Hash)) (coalescedLogs : List Log) :
    Option CTResult :=
  match fuel with
  | 0 => none
  | fuel + 1 =>
    if P.hasInterrupt ∧ P.intrRead k ≠ 0 then
      some { aborted := P.intrRead k == 1
             reason := CTExit.interrupted (P.intrRead k)
             env := env, committed := committedTxs.getD [], logs := coalescedLogs }
    else if env.gasPool.getD 0 < P.txGas then
      some { aborted := false, reason := CTExit.gasExhausted
             env := env, committed := committedTxs.getD [], logs := coalescedLogs }
    else
      match txs.peek with
      | none =>
        some { aborted := false, reason := CTExit.queueEmpty
               env := env, committed := committedTxs.getD [], logs := coalescedLogs }
      | some tx =>
        if 0 < P.maxTxsPerBlock ∧ P.maxTxsPerBlock ≤ (env.tcount : Int) then
          some { aborted := false, reason := CTExit.txLimitReached
                 env := env, committed := committedTxs.getD [], logs := coalescedLogs }
        else if P.hasTstart ∧ env.till.isSome ∧ P.tillElapsed k ∧
            P.blockMinBuildTxs ≤ (((committedTxs.getD []).length : Int)) then
          some { aborted := false, reason := CTExit.deadlineReached
                 env := env, committed := committedTxs.getD [], logs := coalescedLogs }
        else
          let committedTxs' := committedTxs.map
            (fun l => if tx.hash ∈ l then l else l ++ [tx.hash])
          if tx.isProtected ∧ ¬ P.chainIsEIP155 then
            commitTransactionsLoop P fuel (k + 1) env txs.pop committedTxs' coalescedLogs
          else
            match commitTransaction P.applyTx env tx with
            | (env', Except.error TxErr.gasLimitReached) =>
              commitTransactionsLoop P fuel (k + 1) env' txs.pop committedTxs' coalescedLogs
            | (env', Except.error TxErr.nonceTooLow) =>
              commitTransactionsLoop P fuel (k + 1) env' txs.shift committedTxs' coalescedLogs
            | (env', Except.error TxErr.nonceTooHigh) =>
              commitTransactionsLoop P fuel (k + 1) env' txs.pop committedTxs' coalescedLogs
            | (env', Except.ok logs) =>
              commitTransactionsLoop P fuel (k + 1)
                { env' with tcount := env'.tcount + 1 } txs.shift committedTxs'
                (coalescedLogs ++ logs)
            | (env', Except.error TxErr.txTypeNotSupported) =>
              commitTransactionsLoop P fuel (k + 1) env' txs.pop committedTxs' coalescedLogs
            | (env', Except.error TxErr.other) =>
              commitTransactionsLoop P fuel (k + 1) env' txs.shift committedTxs' coalescedLogs

/-- commitTransactions (worker.go): initialize the gas pool from the header's
gas limit when it is still nil, then run the loop.  The trailing pending-logs
publication and the inc=false interval-adjust message are channel sends with
no effect on the returned value or the environment and are elided; all Go
`return` and `break` paths are reflected in the result's `aborted` and
`reason` fields. -/
def commitTransactions (P : CTParams) (fuel : Nat) (env : environment)
    (txs : TxByPriceAndNonce) (committedTxs : Option (List Hash)) :
    Option CTResult :=
  let env := if env.gasPool.isNone
             then { env with gasPool := some env.header.gasLimit } else env
  commitTransactionsLoop P fuel 0 env txs committedTxs []

/-- Loop body of commitTransactionsSimple (worker.go), fuel-guarded.  Same
control structure as `commitTransactionsLoop` except: the transaction source
is the TxOrderer, there is no MaxTxsPerBlock break, committed transactions
are tracked by the orderer (`MarkCommitted` / `CommittedLength`).  The
`tx_prefetch` call warms the state cache only and is elided, as is the
deferred `txs.Close()`. -/
def commitTransactionsSimpleLoop (P : CTParams) (fuel : Nat) (k : Nat)
    (env : environment) (txs : TxOrderer) (coalescedLogs : List Log) :
    Option CTResult :=
  match fuel with
  | 0 => none
  | fuel + 1 =>
    if P.hasInterrupt ∧ P.intrRead k ≠ 0 then
      some { aborted := P.intrRead k == 1
             reason := CTExit.interrupted (P.intrRead k)
             env := env, committed := txs.committed, logs := coalescedLogs }
    else if env.gasPool.getD 0 < P.txGas then
      some { aborted := false, reason := CTExit.gasExhausted
             env := env, committed := txs.committed, logs := coalescedLogs }
    else
      match txs.peek with
      | none =>
        some { aborted := false, reason := CTExit.queueEmpty
               env := env, committed := txs.committed, logs := coalescedLogs }
      | some tx =>
        if P.hasTstart ∧ env.till.isSome ∧ P.tillElapsed k ∧
            P.blockMinBuildTxs ≤ ((txs.committedLength : Int)) then
          some { aborted := false, reason := CTExit.deadlineReached
                 env := env, committed := txs.committed, logs := coalescedLogs }
        else
          let txs := txs.markCommitted tx
          if tx.isProtected ∧ ¬ P.chainIsEIP155 then
            commitTransactionsSimpleLoop P fuel (k + 1) env txs.pop coalescedLogs
          else
            match commitTransaction P.applyTx env tx with
            | (env', Except.error TxErr.gasLimitReached) =>
              commitTransactionsSimpleLoop P fuel (k + 1) env' txs.pop coalescedLogs
            | (env', Except.error TxErr.nonceTooLow) =>
              commitTransactionsSimpleLoop P fuel (k + 1) env' txs.shift coalescedLogs
            | (env', Except.error TxErr.nonceTooHigh) =>
              commitTransactionsSimpleLoop P fuel (k + 1) env' txs.pop coalescedLogs
            | (env', Except.ok logs) =>
              commitTransactionsSimpleLoop P fuel (k + 1)
                { env' with tcount := env'.tcount + 1 } txs.shift
                (coalescedLogs ++ logs)
            | (env', Except.error TxErr.txTypeNotSupported) =>
              commitTransactionsSimpleLoop P fuel (k + 1) env' txs.pop coalescedLogs
            | (env', Except.error TxErr.other) =>
              commitTransactionsSimpleLoop P fuel (k + 1) env' txs.shift coalescedLogs

/-- commitTransactionsSimple (worker.go): initialize the gas pool from the
header's gas limit when it is still nil, then run the loop. -/
def commitTransactionsSimple (P : CTParams) (fuel : Nat) (env : environment)
    (txs : TxOrderer) : Option CTResult :=
  let env := if env.gasPool.isNone
             then { env with gasPool := some env.header.gasLimit } else env
  commitTransactionsSimpleLoop P fuel 0 env txs []

/-! ## recalcRecommit -/

/-- intervalAdjustRatio = 0.1 (worker.go constant). -/
def intervalAdjustRatioQ : ℚ := 1/10

/-- intervalAdjustBias = 200 * 1000.0 * 1000.0 nanoseconds (worker.go
constant). -/
def intervalAdjustBiasQ : ℚ := 200 * 1000 * 1000

/-- minRecommitInterval = 1 s in nanoseconds. -/
def minRecommitIntervalNs : Int := 1000000000

/-- maxRecommitInterval = 15 s in nanoseconds. -/
def maxRecommitIntervalNs : Int := 15000000000

/-- Conversion `time.Duration(int64(next))` of a float64: truncation toward
zero, modelled over ℚ. -/
def int64trunc (q : ℚ) : Int := if 0 ≤ q then ⌊q⌋ else ⌈q⌉

/-- recalcRecommit (worker.go): recalculates the resubmitting interval upon
feedback; float64 arithmetic idealized as exact arithmetic over ℚ.  For
inc=true the candidate is clamped above at maxRecommitInterval; for inc=false
it is clamped below at minRecommit. -/
def recalcRecommit (minRecommit prev : Int) (target : ℚ) (inc : Bool) : Int :=
  let prevF : ℚ := (prev : ℚ)
  let next : ℚ :=
    if inc then
      let n := prevF * (1 - intervalAdjustRatioQ) +
        intervalAdjustRatioQ * (target + intervalAdjustBiasQ)
      if n > (maxRecommitIntervalNs : ℚ) then (maxRecommitIntervalNs : ℚ) else n
    else
      let n := prevF * (1 - intervalAdjustRatioQ) +
        intervalAdjustRatioQ * (target - intervalAdjustBiasQ)
      if n < (minRecommit : ℚ) then (minRecommit : ℚ) else n
  int64trunc next

/-- Handler of a resubmitAdjustCh message with inc=true in newWorkLoop
(worker.go): target = float64(recommit.Nanoseconds()) / adjust.ratio, then
recalcRecommit(minRecommit, recommit, target, true). -/
def adjustRecommitInc (minRecommit recommit : Int) (ratio : ℚ) : Int :=
  recalcRecommit minRecommit recommit ((recommit : ℚ) / ratio) true

/-! ## clearPending -/

/-- staleThreshold = 7 (worker.go constant). -/
def staleThreshold : Nat := 7

/-- Entry of the pendingTasks map (struct `task`; the pruning logic reads
only the block number). -/
structure PTask where
  blockNumber : Nat
deriving DecidableEq, Repr

/-- clearPending (the identical closure in newWorkLoop and newWorkLoopEx,
worker.go): deletes every pending task with
`t.block.NumberU64()+staleThreshold <= number`.  The uint64 addition wraps,
hence the `% 2^64`. -/
def clearPending (number : Nat) (pendingTasks : List (Hash × PTask)) :
    List (Hash × PTask) :=
  pendingTasks.filter
    (fun p => decide (number < (p.2.blockNumber + staleThreshold) % 2 ^ 64))

/-! ## commitUncle and environment construction -/

/-- commitUncle (worker.go): adds the given header to the uncle set of the
environment, or returns an error naming the reason.  `isPoW` models
`wemixminer.IsPoW()` and `ttdReached` models `w.isTTDReached(env.header)`
(both external lookups). -/
def commitUncle (isPoW ttdReached : Bool) (env : environment)
    (uncle : BHeader) : Except String environment :=
  if isPoW = false then Except.error "We do not call uncles"
  else if ttdReached = true then Except.error "ignore uncle for beacon block"
  else if uncle.hashVal ∈ env.uncles.map Prod.fst then Except.error "uncle not unique"
  else if env.header.parentHash = uncle.parentHash then Except.error "uncle is sibling"
  else if uncle.parentHash ∉ env.ancestors then Except.error "uncle's parent unknown"
  else if uncle.hashVal ∈ env.family then Except.error "uncle already included"
  else Except.ok { env with uncles := env.uncles ++ [(uncle.hashVal, uncle)] }

/-- The commitUncles closure inside prepareWork (worker.go): fold the uncle
candidates into the environment, stopping once two uncles are present and
skipping (with a trace log, elided) every rejected candidate. -/
def commitUncles (isPoW ttdReached : Bool) (env : environment)
    (blocks : List BHeader) : environment :=
  match blocks with
  | [] => env
  | uncle :: rest =>
    if env.uncles.length = 2 then env
    else
      match commitUncle isPoW ttdReached env uncle with
      | Except.ok env' => commitUncles isPoW ttdReached env' rest
      | Except.error _ => commitUncles isPoW ttdReached env rest

/-- The state-lookup ladder at the head of makeEnv: `chain.StateAt(parent.Root())`
and, on failure, the bounded `eth.StateAtBlock` recovery. -/
def makeEnvState (stateAtParent recoveredState : Option Nat) : Option Nat :=
  match stateAtParent with
  | some st => some st
  | none => recoveredState

/-- makeEnv (worker.go): look up the parent state (`StateAt`, falling back to
the bounded `StateAtBlock` recovery on failure — both lookups are external
and modelled as the two Option-valued inputs), start the prefetcher
(resource-only, elided), build the fresh environment and seed `ancestors` and
`family` from the up-to-seven most recent ancestor blocks (the
GetBlocksFromHash result, each block given as its hash paired with its
uncles' hashes). -/
def makeEnv (stateAtParent recoveredState : Option Nat) (signer : Nat)
    (header : BHeader) (coinbase : Address)
    (ancestorBlocks : List (Hash × List Hash)) : Option environment :=
  match makeEnvState stateAtParent recoveredState with
  | none => none
  | some st =>
    some { signer := signer
           state := st
           coinbase := coinbase
           ancestors := ancestorBlocks.map Prod.fst
           family := ancestorBlocks.foldl (fun fam b => fam ++ b.2 ++ [b.1]) []
           header := header
           uncles := []
           tcount := 0
           gasPool := none
           txs := []
           receipts := []
           till := none
           blockInterval := 0
           blockGasLimit := 0
           baseFeeMaxChangeRate := 0
           gasTargetPercentage := 0 }

/-- The environment assembly of prepareWork (worker.go) after the header has
been prepared: makeEnv, then (in leader mode) set the deadline, set the block
build parameters, and (unless noUncle) accumulate uncles from the local and
then the remote candidate sets. -/
def prepareWorkEnv (isPoW ttdReached : Bool)
    (stateAtParent recoveredState : Option Nat) (signer : Nat)
    (header : BHeader) (coinbase : Address)
    (ancestorBlocks : List (Hash × List Hash)) (till : Option Int)
    (blockInterval : Int) (blockGasLimit : Nat)
    (baseFeeMaxChangeRate gasTargetPercentage : Int) (noUncle : Bool)
    (localUncles remoteUncles : List BHeader) : Option environment :=
  match makeEnv stateAtParent recoveredState signer header coinbase ancestorBlocks with
  | none => none
  | some env =>
    let env := { env with
      till := if isPoW then none else till
      blockInterval := blockInterval
      blockGasLimit := blockGasLimit
      baseFeeMaxChangeRate := baseFeeMaxChangeRate
      gasTargetPercentage := gasTargetPercentage }
    if noUncle then some env
    else some (commitUncles isPoW ttdReached
      (commitUncles isPoW ttdReached env localUncles) remoteUncles)

/-! ## timeIt -/

/-- Inputs of timeIt (worker.go): the chain head, the wall clock at entry and
the header-time lookup `chain.GetHeaderByNumber(n)?.Time`, plus the
wemix/params package constants the function reads. -/
structure TimeItIn where
  parentNumber : Nat
  parentTime : Nat
  nowSec : Int
  nowMs : Int
  headerTime : Nat → Option Nat
  blockTimeAdjBlocks : Int
  blockTimeAdjMultiple : Nat
  blockMinBuildTime : Int
  blockTrailTime : Int

/-- Result of timeIt: the chosen block timestamp (seconds) and the build
deadline `till` in wall-clock milliseconds (`time.Unix(tms/1e3,
(tms%1e3)*1e6)` is determined by `tms`). -/
structure TimeItOut where
  timestamp : Nat
  tillMs : Int
deriving DecidableEq, Repr

/-- Effective block interval in seconds (head of timeIt, worker.go):
`blockInterval /= 1000; if blockInterval <= 0 { blockInterval = 1 }` with Go's
truncating int64 division. -/
def timeItInterval (blockInterval : Int) : Int :=
  let b := Int.tdiv blockInterval 1000
  if b ≤ 0 then 1 else b

/-- The check closure of timeIt (worker.go): offset −1 when behind, +1 when
ahead, 0 otherwise; peeking distance capped at maxPeekBack = 86400; heights
below 0 and missing headers yield 0.  `num` is parent.Number()+1. -/
def timeItCheck (nowSec : Int) (headerTime : Nat → Option Nat) (num : Int)
    (bi : Int) (heightToPeek : Int) : Int :=
  let hp := if heightToPeek > 86400 then 86400 else heightToPeek
  let n : Int := num - hp
  if n < 0 then 0
  else
    match headerTime n.toNat with
    | none => 0
    | some stamp =>
      let dt : Int := nowSec - (stamp : Int)
      if hp * bi < dt ∧ dt < 2 * hp * bi then -1
      else if dt < hp * bi then 1
      else 0

/-- The look-back for loop of timeIt (worker.go): for i in
[0, BlockTimeAdjMultiple), check distance adjBlocks, break on behind, count
aheads, multiply adjBlocks by 10.  Returns the final offset and ahead
count. -/
def timeItScan (nowSec : Int) (headerTime : Nat → Option Nat) (num : Int)
    (bi : Int) : Nat → Int → Int × Nat → Int × Nat
  | 0, _, acc => acc
  | i + 1, adjBlocks, (_, ahead) =>
    let o := timeItCheck nowSec headerTime num bi adjBlocks
    if o < 0 then (o, ahead)
    else timeItScan nowSec headerTime num bi i (adjBlocks * 10)
      (o, if o > 0 then ahead + 1 else ahead)

/-- timeIt (worker.go): pick the next block's timestamp and the build
deadline from the wall clock and the look-back offsets.  The timestamp is
`uint64(now.Unix())` (the int64→uint64 cast is value mod 2^64) floored by the
parent block's *number*; the deadline `till` is computed per offset branch in
milliseconds with Go's truncating division. -/
def timeIt (inp : TimeItIn) (blockInterval : Int) : TimeItOut :=
  let bi := timeItInterval blockInterval
  let num : Int := (inp.parentNumber : Int) + 1
  let o1 := timeItCheck inp.nowSec inp.headerTime num bi 1
  let scanned :=
    if o1 ≥ 0 then
      timeItScan inp.nowSec inp.headerTime num bi inp.blockTimeAdjMultiple
        inp.blockTimeAdjBlocks (o1, if o1 > 0 then 1 else 0)
    else (o1, 0)
  let offset := if scanned.1 ≥ 0 ∧ scanned.2 > 0 then 1 else scanned.1
  let ts0 : Nat := (inp.nowSec % (2 ^ 64 : Int)).toNat
  let timestamp := if ts0 < inp.parentNumber then inp.parentNumber else ts0
  let tillMs : Int :=
    if offset = -1 then
      let tms := inp.nowMs + inp.blockMinBuildTime
      if Int.tdiv tms 1000 ≤ (inp.parentTime : Int)
      then (inp.nowSec + 1) * 1000
      else tms
    else if offset = 1 then
      let tms := inp.nowMs + bi * 1000 + inp.blockMinBuildTime
      if Int.tdiv tms 1000 > inp.nowSec + bi
      then (inp.nowSec + bi + 1) * 1000 - inp.blockTrailTime
      else tms
    else
      let tms := inp.nowMs + bi * 1000 - inp.blockTrailTime
      if Int.tdiv tms 1000 > inp.nowSec + 1
      then (inp.nowSec + 2) * 1000 - inp.blockTrailTime
      else tms
  { timestamp := timestamp, tillMs := tillMs }

/-! ## pending and the snapshot state copy

StateDB instances live in an explicit heap (a list of state contents indexed
by allocation order) so that aliasing and deep copies are observable. -/

abbrev StateHeap := List Nat

/-- The snapshot triple of the worker (fields snapshotBlock,
snapshotReceipts, snapshotState of struct `worker`); the block is abstracted
to its hash, the state to a heap index, `none` meaning the nil pointer. -/
structure WorkerSnap where
  snapshotBlock : Option Nat
  snapshotReceipts : List Receipt
  snapshotState : Option Nat
deriving DecidableEq, Repr

/-- state.Copy() (StateDB deep copy, external to this repository): allocate a
fresh StateDB whose contents equal those of the source; returns the extended
heap and the new index. -/
def stateCopy (h : StateHeap) (i : Nat) : StateHeap × Nat :=
  (h ++ [h.getD i 0], h.length)

/-- Mutation of a StateDB through a handle: overwrite its contents. -/
def stateWrite (h : StateHeap) (i : Nat) (v : Nat) : StateHeap :=
  h.set i v

/-- pending (worker.go): under snapshotMu, return (nil, nil) when no snapshot
state has been published; otherwise the snapshot block together with a deep
copy of the snapshot state. -/
def pending (h : StateHeap) (w : WorkerSnap) :
    StateHeap × Option Nat × Option Nat :=
  match w.snapshotState with
  | none => (h, none, none)
  | some i =>
    let copied := stateCopy h i
    (copied.1, w.snapshotBlock, some copied.2)

/-! ## Concrete fixtures used by the witnesses -/

/-- Test environment used by concrete witnesses. -/
def envW : environment :=
  { signer := 0
    state := 42
    ancestors := [10, 20]
    family := [3, 10, 20]
    tcount := 0
    gasPool := some 1000000
    coinbase := 7
    header := { hashVal := 11, parentHash := 10, number := 5, gasLimit := 1000000, time := 99 }
    txs := [{ hash := 1, sender := 2, nonce := 0, isProtected := true }]
    receipts := [{ gasUsed := 21000, logs := [3] }]
    uncles := []
    till := none
    blockInterval := 1000
    blockGasLimit := 1000000
    baseFeeMaxChangeRate := 0
    gasTargetPercentage := 0 }

/-- Committer parameters used by concrete witnesses: the interrupt atomic
reads NewHead (1) from the first iteration on. -/
def ctParamsW : CTParams :=
  { applyTx := fun s g _ => (s + 1, g - 21000, Except.ok { gasUsed := 21000, logs := [] })
    chainIsEIP155 := true
    txGas := 21000
    maxTxsPerBlock := 0
    blockMinBuildTxs := 0
    hasInterrupt := true
    intrRead := fun _ => 1
    hasTstart := false
    tillElapsed := fun _ => false }

/-- The committer result reached by `ctParamsW` on `envW` in one step. -/
def ctResultW : CTResult :=
  { aborted := true
    reason := CTExit.interrupted 1
    env := envW
    committed := []
    logs := [] }

/-- Uncle candidate used by concrete witnesses: parent 20 is a non-sibling
ancestor of `envW.header` and hash 77 is not in `envW.family`. -/
def uncleW : BHeader :=
  { hashVal := 77, parentHash := 20, number := 4, gasLimit := 1000000, time := 98 }

/-- timeIt inputs used by concrete witnesses. -/
def timeItInW : TimeItIn :=
  { parentNumber := 100
    parentTime := 1000000
    nowSec := 1000001
    nowMs := 1000001500
    headerTime := fun n => if n ≤ 100 then some (999900 + n) else none
    blockTimeAdjBlocks := 10
    blockTimeAdjMultiple := 3
    blockMinBuildTime := 100
    blockTrailTime := 500 }

/-- Snapshot triple used by concrete witnesses: the published state is heap
index 1. -/
def workerSnapW : WorkerSnap :=
  { snapshotBlock := some 11
    snapshotReceipts := []
    snapshotState := some 1 }

/-! # Theorems -/

/-! ## Claim C1 -/

/-- C1: for every transaction attempted by the committer via
`commitTransaction` (called from commitTransactions and
commitTransactionsSimple): if `ApplyTransaction` returns an error, the
environment's state equals the snapshot taken just before the attempt
(byte-identical to the state before) and `env.txs`, `env.receipts` are
unchanged; `env.txs` and `env.receipts` are appended to exactly when
`ApplyTransaction` succeeds, and then by the attempted transaction and the
returned receipt. -/
theorem commitTransaction_revert_on_error (applyTx : ApplyFn)
    (env : environment) (tx : Tx) :
    (∀ st gp e, applyTx env.state (env.gasPool.getD 0) tx = (st, gp, Except.error e) →
      (commitTransaction applyTx env tx).1.state = env.state ∧
      (commitTransaction applyTx env tx).1.txs = env.txs ∧
      (commitTransaction applyTx env tx).1.receipts = env.receipts) ∧
    (∀ st gp r, applyTx env.state (env.gasPool.getD 0) tx = (st, gp, Except.ok r) →
      (commitTransaction applyTx env tx).1.txs = env.txs ++ [tx] ∧
      (commitTransaction applyTx env tx).1.receipts = env.receipts ++ [r]) := by
  constructor
  · intro st gp e h
    simp [commitTransaction, h]
  · intro st gp r h
    simp [commitTransaction, h]

/-- Witness for C1: a concrete failing `applyTx` (which mutates the state it
returns) leaves the environment's state, txs and receipts unchanged. -/
theorem commitTransaction_revert_on_error_witness :
    (commitTransaction (fun s g _ => (s + 5, g - 21000, Except.error TxErr.other))
        envW { hash := 9, sender := 2, nonce := 1, isProtected := false }).1.state = envW.state ∧
    (commitTransaction (fun s g _ => (s + 5, g - 21000, Except.error TxErr.other))
        envW { hash := 9, sender := 2, nonce := 1, isProtected := false }).1.txs = envW.txs ∧
    (commitTransaction (fun s g _ => (s + 5, g - 21000, Except.error TxErr.other))
        envW { hash := 9, sender := 2, nonce := 1, isProtected := false }).1.receipts = envW.receipts :=
  (commitTransaction_revert_on_error
      (fun s g _ => (s + 5, g - 21000, Except.error TxErr.other)) envW
      { hash := 9, sender := 2, nonce := 1, isProtected := false }).1
    (envW.state + 5) (envW.gasPool.getD 0 - 21000) TxErr.other rfl

/-! ## Claim C2 -/

/-- Helper: the price-and-nonce committer loop returns `aborted = true`
exactly when it exited through the interrupt branch with the NewHead code. -/
theorem commitTransactionsLoop_true_iff (P : CTParams) :
    ∀ fuel k env txs committedTxs coalescedLogs r,
      commitTransactionsLoop P fuel k env txs committedTxs coalescedLogs = some r →
      (r.aborted = true ↔ r.reason = CTExit.interrupted 1) := by
  intro fuel
  induction fuel with
  | zero =>
    intro k env txs c la r h
    simp [commitTransactionsLoop] at h
  | succ n ih =>
    intro k env txs c la r h
    simp only [commitTransactionsLoop] at h
    split at h
    · cases h
      simp
    · split at h
      · cases h
        simp
      · split at h
        · cases h
          simp
        · split at h
          · cases h
            simp
          · split at h
            · cases h
              simp
            · split at h
              · exact ih _ _ _ _ _ _ h
              · split at h
                · exact ih _ _ _ _ _ _ h
                · exact ih _ _ _ _ _ _ h
                · exact ih _ _ _ _ _ _ h
                · exact ih _ _ _ _ _ _ h
                · exact ih _ _ _ _ _ _ h
                · exact ih _ _ _ _ _ _ h

/-- Helper: the round-robin committer loop returns `aborted = true` exactly
when it exited through the interrupt branch with the NewHead code. -/
theorem commitTransactionsSimpleLoop_true_iff (P : CTParams) :
    ∀ fuel k env txs coalescedLogs r,
      commitTransactionsSimpleLoop P fuel k env txs coalescedLogs = some r →
      (r.aborted = true ↔ r.reason = CTExit.interrupted 1) := by
  intro fuel
  induction fuel with
  | zero =>
    intro k env txs la r h
    simp [commitTransactionsSimpleLoop] at h
  | succ n ih =>
    intro k env txs la r h
    simp only [commitTransactionsSimpleLoop] at h
    split at h
    · cases h
      simp
    · split at h
      · cases h
        simp
      · split at h
        · cases h
          simp
        · split at h
          · cases h
            simp
          · split at h
            · exact ih _ _ _ _ _ h
            · split at h
              · exact ih _ _ _ _ _ h
              · exact ih _ _ _ _ _ h
              · exact ih _ _ _ _ _ h
              · exact ih _ _ _ _ _ h
              · exact ih _ _ _ _ _ h
              · exact ih _ _ _ _ _ h

/-- C2: commitTransactions and commitTransactionsSimple return true if and
only if they exited because the interrupt atomic held the NewHead code (1)
at the interrupt check; every other exit path (gas pool exhausted, no more
transactions, tx-count limit, deadline, a Resubmit or any other non-NewHead
interrupt value) returns false. -/
theorem commitTransactions_true_iff_newHead :
    (∀ P fuel env txs committedTxs r,
        commitTransactions P fuel env txs committedTxs = some r →
        (r.aborted = true ↔ r.reason = CTExit.interrupted 1)) ∧
    (∀ P fuel env txs r,
        commitTransactionsSimple P fuel env txs = some r →
        (r.aborted = true ↔ r.reason = CTExit.interrupted 1)) := by
  constructor
  · intro P fuel env txs c r h
    simp only [commitTransactions] at h
    exact commitTransactionsLoop_true_iff P fuel 0 _ txs c [] r h
  · intro P fuel env txs r h
    simp only [commitTransactionsSimple] at h
    exact commitTransactionsSimpleLoop_true_iff P fuel 0 _ txs [] r h

/-- Witness for C2: a concrete one-step run that is interrupted with the
NewHead code. -/
theorem commitTransactions_true_iff_newHead_witness :
    ctResultW.aborted = true ↔ ctResultW.reason = CTExit.interrupted 1 :=
  commitTransactions_true_iff_newHead.1 ctParamsW 1 envW ⟨[]⟩ none ctResultW (by decide)

/-! ## Claim C3 -/

/-- Helper: commitUncle leaves txs and receipts untouched. -/
theorem commitUncle_txs_receipts (isPoW ttdReached : Bool) (env : environment)
    (uncle : BHeader) (env' : environment)
    (h : commitUncle isPoW ttdReached env uncle = Except.ok env') :
    env'.txs = env.txs ∧ env'.receipts = env.receipts := by
  unfold commitUncle at h
  repeat' split at h
  all_goals cases h
  all_goals exact ⟨rfl, rfl⟩

/-- Helper: the uncle-accumulation fold leaves txs and receipts untouched. -/
theorem commitUncles_txs_receipts (isPoW ttdReached : Bool) :
    ∀ (blocks : List BHeader) (env : environment),
      (commitUncles isPoW ttdReached env blocks).txs = env.txs ∧
      (commitUncles isPoW ttdReached env blocks).receipts = env.receipts := by
  intro blocks
  induction blocks with
  | nil => intro env; exact ⟨rfl, rfl⟩
  | cons uncle rest ih =>
    intro env
    rw [commitUncles]
    split
    · exact ⟨rfl, rfl⟩
    · split
      · rename_i env' h
        obtain ⟨h1, h2⟩ := commitUncle_txs_receipts isPoW ttdReached env uncle env' h
        obtain ⟨h1', h2'⟩ := ih env'
        exact ⟨h1'.trans h1, h2'.trans h2⟩
      · exact ih env

/-- Helper: makeEnv starts with empty txs and receipts. -/
theorem makeEnv_empty (sp rs : Option Nat) (sg : Nat) (hd : BHeader)
    (cb : Address) (ab : List (Hash × List Hash)) (env : environment)
    (h : makeEnv sp rs sg hd cb ab = some env) :
    env.txs = [] ∧ env.receipts = [] := by
  unfold makeEnv at h
  repeat' split at h
  all_goals cases h
  all_goals exact ⟨rfl, rfl⟩

/-- C3: `len(env.txs) == len(env.receipts)` holds for every freshly built
environment (makeEnv / prepareWork) and is preserved by every operation that
mutates an environment: commitTransaction (on success and on failure),
environment.copy and commitUncle. -/
theorem environment_txs_receipts_length :
    (∀ sp rs sg hd cb ab env, makeEnv sp rs sg hd cb ab = some env →
        env.txs.length = env.receipts.length) ∧
    (∀ isPoW ttd sp rs sg hd cb ab till bi bg bf gt nu lu ru env,
        prepareWorkEnv isPoW ttd sp rs sg hd cb ab till bi bg bf gt nu lu ru = some env →
        env.txs.length = env.receipts.length) ∧
    (∀ env : environment, env.txs.length = env.receipts.length →
        env.copy.txs.length = env.copy.receipts.length) ∧
    (∀ isPoW ttd env uncle env', commitUncle isPoW ttd env uncle = Except.ok env' →
        env.txs.length = env.receipts.length →
        env'.txs.length = env'.receipts.length) ∧
    (∀ applyTx env tx, env.txs.length = env.receipts.length →
        (commitTransaction applyTx env tx).1.txs.length =
        (commitTransaction applyTx env tx).1.receipts.length) := by
  refine ⟨?_, ?_, ?_, ?_, ?_⟩
  · intro sp rs sg hd cb ab env h
    obtain ⟨ht, hr⟩ := makeEnv_empty sp rs sg hd cb ab env h
    rw [ht, hr]
    rfl
  · intro isPoW ttd sp rs sg hd cb ab till bi bg bf gt nu lu ru env h
    simp only [prepareWorkEnv] at h
    split at h
    · cases h
    · rename_i env₀ hmk
      obtain ⟨ht0, hr0⟩ := makeEnv_empty sp rs sg hd cb ab env₀ hmk
      split at h
      · cases h
        simp [ht0, hr0]
      · cases h
        obtain ⟨ht, hr⟩ := commitUncles_txs_receipts isPoW ttd ru
          (commitUncles isPoW ttd
            { env₀ with
              till := if isPoW then none else till
              blockInterval := bi, blockGasLimit := bg
              baseFeeMaxChangeRate := bf, gasTargetPercentage := gt } lu)
        obtain ⟨ht', hr'⟩ := commitUncles_txs_receipts isPoW ttd lu
          { env₀ with
            till := if isPoW then none else till
            blockInterval := bi, blockGasLimit := bg
            baseFeeMaxChangeRate := bf, gasTargetPercentage := gt }
        rw [ht, hr, ht', hr']
        simp [ht0, hr0]
  · intro env h
    simpa [environment.copy, copyReceipts] using h
  · intro isPoW ttd env uncle env' h hlen
    obtain ⟨ht, hr⟩ := commitUncle_txs_receipts isPoW ttd env uncle env' h
    rw [ht, hr]
    exact hlen
  · intro applyTx env tx h
    unfold commitTransaction
    rcases happ : applyTx env.state (env.gasPool.getD 0) tx with ⟨st, gp, res⟩
    cases res <;> simp [h]

/-- Witness for C3: the preservation statement for commitTransaction applied
to a concrete successful application on `envW`. -/
theorem environment_txs_receipts_length_witness :
    (commitTransaction (fun s g _ => (s + 1, g - 21000, Except.ok { gasUsed := 21000, logs := [7] }))
        envW { hash := 9, sender := 2, nonce := 1, isProtected := false }).1.txs.length =
    (commitTransaction (fun s g _ => (s + 1, g - 21000, Except.ok { gasUsed := 21000, logs := [7] }))
        envW { hash := 9, sender := 2, nonce := 1, isProtected := false }).1.receipts.length :=
  environment_txs_receipts_length.2.2.2.2
    (fun s g _ => (s + 1, g - 21000, Except.ok { gasUsed := 21000, logs := [7] }))
    envW { hash := 9, sender := 2, nonce := 1, isProtected := false } rfl

/-! ## Claim C4 -/

/-- Helper: int64 truncation toward zero is monotone. -/
theorem int64trunc_mono {a b : ℚ} (h : a ≤ b) : int64trunc a ≤ int64trunc b := by
  by_cases ha : (0 : ℚ) ≤ a <;> by_cases hb : (0 : ℚ) ≤ b <;>
    simp only [int64trunc, ha, hb, if_true, if_false, ite_true, ite_false]
  · exact Int.floor_le_floor h
  · exact absurd (ha.trans h) hb
  · have h1 : ⌈a⌉ ≤ 0 := Int.ceil_le.mpr (by exact_mod_cast le_of_not_le ha)
    have h2 : (0 : ℤ) ≤ ⌊b⌋ := Int.floor_nonneg.mpr hb
    omega
  · exact Int.ceil_le_ceil h

/-- Helper: int64 truncation is bounded above by any integer bound of its
argument. -/
theorem int64trunc_le_of_le {q : ℚ} {m : Int} (h : q ≤ (m : ℚ)) :
    int64trunc q ≤ m := by
  unfold int64trunc
  split_ifs with hq
  · calc ⌊q⌋ ≤ ⌊((m : ℚ))⌋ := Int.floor_le_floor h
    _ = m := Int.floor_intCast m
  · exact Int.ceil_le.mpr h

/-- Helper: int64 truncation is bounded below by any integer lower bound of
its argument. -/
theorem le_int64trunc_of_le {q : ℚ} {m : Int} (h : (m : ℚ) ≤ q) :
    m ≤ int64trunc q := by
  unfold int64trunc
  split_ifs with hq
  · exact Int.le_floor.mpr h
  · calc m = ⌈((m : ℚ))⌉ := (Int.ceil_intCast m).symm
    _ ≤ ⌈q⌉ := Int.ceil_le_ceil h

/-- C4 (amended): recalcRecommit is monotone (non-decreasing) in prev with
the other arguments fixed; with inc=true its result is clamped above at
maxRecommitInterval (15 s) and with inc=false it is clamped below at
minRecommit.  The two-sided containment in [minRecommit,
maxRecommitInterval] claimed for all arguments does not hold (inc=true has
no lower clamp, inc=false has no upper clamp); see the counterexample. -/
theorem recalcRecommit_monotone_clamped :
    (∀ (minR p p' : Int) (t : ℚ) (inc : Bool), p ≤ p' →
        recalcRecommit minR p t inc ≤ recalcRecommit minR p' t inc) ∧
    (∀ (minR p : Int) (t : ℚ),
        recalcRecommit minR p t true ≤ maxRecommitIntervalNs) ∧
    (∀ (minR p : Int) (t : ℚ), minR ≤ recalcRecommit minR p t false) := by
  refine ⟨?_, ?_, ?_⟩
  · intro minR p p' t inc hp
    have hpq : (p : ℚ) ≤ (p' : ℚ) := by exact_mod_cast hp
    cases inc <;>
      simp only [recalcRecommit, intervalAdjustRatioQ, intervalAdjustBiasQ,
        Bool.false_eq_true, if_true, if_false, ite_true, ite_false] <;>
      apply int64trunc_mono <;>
      split_ifs <;> linarith
  · intro minR p t
    simp only [recalcRecommit, intervalAdjustRatioQ, intervalAdjustBiasQ, ite_true]
    apply int64trunc_le_of_le
    split_ifs with h
    · exact le_refl _
    · exact le_of_not_lt h
  · intro minR p t
    simp only [recalcRecommit, intervalAdjustRatioQ, intervalAdjustBiasQ,
      Bool.false_eq_true, ite_false]
    apply le_int64trunc_of_le
    split_ifs with h
    · exact le_refl _
    · exact le_of_not_lt h

/-- C4 counterexample: at minRecommit = 1 s, prev = 0, target = 0, inc =
true, recalcRecommit returns 2·10^7 ns = 20 ms, strictly below minRecommit,
so the result does not lie in [minRecommit, maxRecommitInterval]. -/
theorem recalcRecommit_interval_counterexample :
    recalcRecommit minRecommitIntervalNs 0 0 true = 20000000 ∧
    recalcRecommit minRecommitIntervalNs 0 0 true < minRecommitIntervalNs := by
  have h : recalcRecommit minRecommitIntervalNs 0 0 true = 20000000 := by
    unfold recalcRecommit int64trunc intervalAdjustRatioQ intervalAdjustBiasQ
      maxRecommitIntervalNs
    norm_num
  refine ⟨h, ?_⟩
  rw [h]
  unfold minRecommitIntervalNs
  norm_num

/-- Witness for C4: monotonicity at concrete inputs 2 s ≤ 3 s. -/
theorem recalcRecommit_monotone_clamped_witness :
    recalcRecommit minRecommitIntervalNs 2000000000 3000000000 true ≤
      recalcRecommit minRecommitIntervalNs 3000000000 3000000000 true :=
  recalcRecommit_monotone_clamped.1 minRecommitIntervalNs 2000000000 3000000000
    3000000000 true (by norm_num)

/-! ## Claim C5 -/

/-- Helper: the upper clamp written as a min. -/
theorem ite_gt_eq_min (n M : ℚ) : (if n > M then M else n) = min n M := by
  split_ifs with h
  · exact (min_eq_right h.le).symm
  · exact (min_eq_left (not_lt.mp h)).symm

/-- C5: on an inc=true resubmit-adjust with ratio r > 0, the new recommit
interval is prev·(1−0.1) + 0.1·(prev/r + 200 ms) in nanoseconds, clamped
above at 15 s (float64 idealized as exact rational arithmetic); with
minRecommit = 1 s, recommit = 3 s and ratio = 0.2 this is exactly
3·0.9 + 0.1·(15 + 0.2) s = 4.22 s = 4220000000 ns, under the 15 s clamp. -/
theorem adjustRecommitInc_formula :
    (∀ (minR prev : Int) (r : ℚ), 0 < r →
        adjustRecommitInc minR prev r =
          int64trunc (min
            ((prev : ℚ) * (1 - 1/10) + 1/10 * ((prev : ℚ) / r + 200 * 1000 * 1000))
            ((15000000000 : Int) : ℚ))) ∧
    adjustRecommitInc minRecommitIntervalNs 3000000000 (1/5) = 4220000000 := by
  constructor
  · intro minR prev r hr
    simp only [adjustRecommitInc, recalcRecommit, intervalAdjustRatioQ,
      intervalAdjustBiasQ, maxRecommitIntervalNs, ite_true]
    rw [ite_gt_eq_min]
  · unfold adjustRecommitInc recalcRecommit int64trunc intervalAdjustRatioQ
      intervalAdjustBiasQ maxRecommitIntervalNs minRecommitIntervalNs
    norm_num

/-- Witness for C5: the general formula instantiated at minRecommit = 1 s,
recommit = 3 s, ratio = 1/5. -/
theorem adjustRecommitInc_formula_witness :
    adjustRecommitInc minRecommitIntervalNs 3000000000 (1/5) =
      int64trunc (min
        ((3000000000 : ℚ) * (1 - 1/10) + 1/10 * ((3000000000 : ℚ) / (1/5) + 200 * 1000 * 1000))
        ((15000000000 : Int) : ℚ)) := by
  have h := adjustRecommitInc_formula.1 minRecommitIntervalNs 3000000000 (1/5) (by norm_num)
  simpa using h

/-! ## Claim C6 -/

/-- C6: commitUncle returns an error iff the mode is not PoW, TTD is reached
for the header, the uncle's hash is already present in env.uncles, the uncle
is a sibling of the header (same parent hash), its parent is not among the
ancestors, or its hash is in the family; otherwise it returns the
environment with the uncle added to env.uncles. -/
theorem commitUncle_accept_iff (isPoW ttdReached : Bool) (env : environment)
    (uncle : BHeader) :
    ((∃ e, commitUncle isPoW ttdReached env uncle = Except.error e) ↔
      (isPoW = false ∨ ttdReached = true ∨
        uncle.hashVal ∈ env.uncles.map Prod.fst ∨
        env.header.parentHash = uncle.parentHash ∨
        uncle.parentHash ∉ env.ancestors ∨
        uncle.hashVal ∈ env.family)) ∧
    (∀ _ : ¬ (isPoW = false ∨ ttdReached = true ∨
        uncle.hashVal ∈ env.uncles.map Prod.fst ∨
        env.header.parentHash = uncle.parentHash ∨
        uncle.parentHash ∉ env.ancestors ∨
        uncle.hashVal ∈ env.family),
      commitUncle isPoW ttdReached env uncle =
        Except.ok { env with uncles := env.uncles ++ [(uncle.hashVal, uncle)] }) := by
  constructor
  · unfold commitUncle
    split_ifs with h1 h2 h3 h4 h5 h6 <;> simp_all
  · intro h
    push_neg at h
    obtain ⟨h1, h2, h3, h4, h5, h6⟩ := h
    unfold commitUncle
    split_ifs <;> simp_all

/-- Witness for C6: the concrete candidate `uncleW` (parent 20 in ancestors,
hash 77 not in family, not a sibling) is accepted into `envW`. -/
theorem commitUncle_accept_iff_witness :
    commitUncle true false envW uncleW =
      Except.ok { envW with uncles := envW.uncles ++ [(uncleW.hashVal, uncleW)] } :=
  (commitUncle_accept_iff true false envW uncleW).2 (by decide)

/-! ## Claim C7 -/

/-- C7 (amended): a pendingTasks entry is retained by clearPending exactly
when the chain head number is strictly below its block number plus the stale
threshold; equivalently, it is pruned exactly when it falls behind the head
by at least 7 (head − number ≥ 7).  The boundary entry at distance exactly 7
is pruned, not retained; see the counterexample. -/
theorem clearPending_retained_iff (number : Nat) (tasks : List (Hash × PTask))
    (p : Hash × PTask) (h : p.2.blockNumber + staleThreshold < 2 ^ 64) :
    p ∈ clearPending number tasks ↔
      p ∈ tasks ∧ number < p.2.blockNumber + staleThreshold := by
  simp only [clearPending, List.mem_filter, decide_eq_true_eq, staleThreshold] at *
  constructor
  · rintro ⟨hm, hlt⟩
    exact ⟨hm, by omega⟩
  · rintro ⟨hm, hlt⟩
    exact ⟨hm, by omega⟩

/-- C7 counterexample: with chain head 10, a pending task at block 3 falls
behind by exactly 7 — not more than the stale threshold — yet clearPending
deletes it. -/
theorem clearPending_boundary_counterexample :
    clearPending 10 [(5, { blockNumber := 3 })] = [] ∧
    ¬ 10 - 3 > staleThreshold := by
  constructor
  · decide
  · decide

/-- Witness for C7: a task at distance 6 from the head is retained. -/
theorem clearPending_retained_iff_witness :
    (5, ({ blockNumber := 4 } : PTask)) ∈
      clearPending 10 [(5, { blockNumber := 4 })] :=
  (clearPending_retained_iff 10 [(5, { blockNumber := 4 })]
      (5, { blockNumber := 4 }) (by decide)).mpr ⟨by decide, by decide⟩

/-! ## Claim C8 -/

/-- C8: for every invocation of timeIt, the returned block timestamp equals
the current unix time in seconds (as uint64), except that when that value is
smaller than the parent block's number it equals the parent block's number —
i.e. timestamp = max(now.unix(), parent.number) — regardless of the
behind/ahead/on-schedule offset branch. -/
theorem timeIt_timestamp_max (inp : TimeItIn) (blockInterval : Int) :
    (timeIt inp blockInterval).timestamp =
      max ((inp.nowSec % (2 ^ 64 : Int)).toNat) inp.parentNumber := by
  simp only [timeIt]
  split <;> omega

/-! ## Claim C9 -/

/-- Helper: every block interval strictly below 1000 ms yields the effective
per-second interval 1 (the truncating division by 1000 gives a quotient
≤ 0, which is substituted by 1). -/
theorem timeItInterval_subsecond (b : Int) (hb : b < 1000) :
    timeItInterval b = 1 := by
  unfold timeItInterval
  have hle : Int.tdiv b 1000 ≤ 0 := by
    rcases le_or_lt 0 b with h0 | h0
    · exact le_of_eq (Int.tdiv_eq_zero_of_lt h0 hb)
    · have h1 : 0 ≤ Int.tdiv (-b) 1000 := Int.tdiv_nonneg (by omega) (by norm_num)
      have h2 : Int.tdiv (-b) 1000 = -(Int.tdiv b 1000) := Int.neg_tdiv b 1000
      omega
  simp [hle]

/-- C9: timeIt converts the configured block interval from milliseconds to
seconds by truncating integer division by 1000 and substitutes 1 second
whenever the quotient is ≤ 0; hence for every configured interval strictly
below 1000 ms the whole of timeIt — check offsets and the till deadline —
computes exactly what it computes for a 1000 ms (1 s) interval. -/
theorem timeIt_subsecond_as_one_second (inp : TimeItIn) (b : Int)
    (hb : b < 1000) :
    timeItInterval b = 1 ∧ timeIt inp b = timeIt inp 1000 := by
  have h1 := timeItInterval_subsecond b hb
  have h2 : timeItInterval 1000 = 1 := by decide
  exact ⟨h1, by simp only [timeIt, h1, h2]⟩

/-- Witness for C9: a concrete 500 ms interval paces exactly like 1 s. -/
theorem timeIt_subsecond_as_one_second_witness :
    timeIt timeItInW 500 = timeIt timeItInW 1000 :=
  (timeIt_subsecond_as_one_second timeItInW 500 (by norm_num)).2

/-! ## Claim C10 -/

/-- C10: pending returns (nil, nil) whenever no snapshot state has been
published; when one exists, it returns the snapshot block together with a
deep copy of the snapshot state: the copy is a fresh handle (distinct from
the snapshot's), its contents equal the snapshot's, the copy does not
disturb the snapshot, and any write through the returned handle leaves the
worker's published snapshot state unchanged. -/
theorem pending_nil_or_deep_copy :
    (∀ (h : StateHeap) (w : WorkerSnap), w.snapshotState = none →
        pending h w = (h, none, none)) ∧
    (∀ (h : StateHeap) (w : WorkerSnap) (i : Nat), w.snapshotState = some i →
        i < h.length →
        (pending h w).2.1 = w.snapshotBlock ∧
        (pending h w).2.2 = some h.length ∧
        h.length ≠ i ∧
        (pending h w).1.getD i 0 = h.getD i 0 ∧
        (pending h w).1.getD h.length 0 = h.getD i 0 ∧
        ∀ v, (stateWrite (pending h w).1 h.length v).getD i 0 = h.getD i 0) := by
  constructor
  · intro h w hs
    simp [pending, hs]
  · intro h w i hs hi
    simp only [pending, hs, stateCopy]
    refine ⟨?_, ?_, ?_, ?_, ?_, ?_⟩
    · trivial
    · trivial
    · omega
    · exact List.getD_append _ _ _ _ hi
    · rw [List.getD_append_right _ _ _ _ (le_refl _)]
      simp
    · intro v
      have hset : (h ++ [h.getD i 0]).set h.length v = h ++ [v] := by
        rw [List.set_append_right _ _ (le_refl _)]
        simp
      rw [stateWrite, hset]
      exact List.getD_append _ _ _ _ hi

/-- Witness for C10: on the concrete heap [5, 6] with published snapshot
index 1, a write through the handle returned by pending leaves the snapshot
contents (6) unchanged. -/
theorem pending_nil_or_deep_copy_witness :
    (stateWrite (pending [5, 6] workerSnapW).1 ([5, 6] : StateHeap).length 99).getD 1 0 =
      ([5, 6] : StateHeap).getD 1 0 :=
  (pending_nil_or_deep_copy.2 [5, 6] workerSnapW 1 rfl (by decide)).2.2.2.2.2 99

end Worker
